import Mathlib

/-!
Verification development for the coc-pyright editor-integration layer.

The development shallowly embeds the two core components of the source:
the linter output pipeline (src/features/linters/baseLinter.ts) and the
refactor worker session (src/features/refactor.ts).  Pure functions of the
source become Lean functions; the stateful stream handlers become explicit
state-passing functions; fallible operations return Option.  External
collaborators (the process-execution service, the diff-to-edit translator,
the editor document API) are passed in as explicit parameters, mirroring
the interface boundary drawn by the specification.
-/

namespace CocPyright

/-! ## Generic list helpers -/

theorem takeWhile_all {α} (p : α → Bool) (xs : List α) (h : ∀ x ∈ xs, p x = true) :
    xs.takeWhile p = xs := by
  induction xs with
  | nil => rfl
  | cons a l ih =>
    have ha : p a = true := h a (List.mem_cons_self a l)
    simp [List.takeWhile, ha, ih fun x hx => h x (List.mem_cons_of_mem a hx)]

theorem dropWhile_all {α} (p : α → Bool) (xs : List α) (h : ∀ x ∈ xs, p x = true) :
    xs.dropWhile p = [] := by
  induction xs with
  | nil => rfl
  | cons a l ih =>
    have ha : p a = true := h a (List.mem_cons_self a l)
    simp [List.dropWhile, ha, ih fun x hx => h x (List.mem_cons_of_mem a hx)]

theorem takeWhile_all_append {α} (p : α → Bool) (xs : List α) (y : α) (ys : List α)
    (h : ∀ x ∈ xs, p x = true) (hy : p y = false) :
    (xs ++ y :: ys).takeWhile p = xs := by
  rw [List.takeWhile_append_of_pos h]
  simp [List.takeWhile, hy]

theorem dropWhile_all_append {α} (p : α → Bool) (xs : List α) (y : α) (ys : List α)
    (h : ∀ x ∈ xs, p x = true) (hy : p y = false) :
    (xs ++ y :: ys).dropWhile p = y :: ys := by
  rw [List.dropWhile_append_of_pos h]
  simp [List.dropWhile, hy]

/-! ## A model of the JavaScript `JSON.parse` builtin

`JSON.parse` is an external (JavaScript runtime) collaborator of the source.
It is modelled here as a fuel-bounded recursive-descent parser for the JSON
grammar: null, booleans, integer numbers, strings with the common escape
sequences, arrays and objects.  Parsing failure (the `SyntaxError` thrown by
`JSON.parse`) is modelled as `none`.  Duplicate object keys follow the
JavaScript rule: the last occurrence wins (see `jlookup`). -/

inductive Json where
  | null : Json
  | bool (b : Bool) : Json
  | num (n : Int) : Json
  | str (s : String) : Json
  | arr (xs : List Json) : Json
  | obj (fields : List (String × Json)) : Json

def lbrace : Char := Char.ofNat 123

def rbrace : Char := Char.ofNat 125

def isJsonWs (c : Char) : Bool := c = ' ' || c = '\t' || c = '\n' || c = '\r'

def skipWs (cs : List Char) : List Char := cs.dropWhile isJsonWs

def escChar (e : Char) : Option Char :=
  if e = '"' then some '"'
  else if e = '\\' then some '\\'
  else if e = '/' then some '/'
  else if e = 'n' then some '\n'
  else if e = 't' then some '\t'
  else if e = 'r' then some '\r'
  else if e = 'b' then some (Char.ofNat 8)
  else if e = 'f' then some (Char.ofNat 12)
  else none

def parseStrChars : Nat → List Char → Option (List Char × List Char)
  | 0, _ => none
  | _ + 1, [] => none
  | f + 1, c :: r =>
    if c = '"' then some ([], r)
    else if c = '\\' then
      match r with
      | [] => none
      | e :: r2 =>
        match escChar e with
        | none => none
        | some d =>
          match parseStrChars f r2 with
          | none => none
          | some (s, rest) => some (d :: s, rest)
    else
      match parseStrChars f r with
      | none => none
      | some (s, rest) => some (c :: s, rest)

def digitsToNat (ds : List Char) : Nat := ds.foldl (fun a c => a * 10 + (c.toNat - 48)) 0

mutual

def parseVal : Nat → List Char → Option (Json × List Char)
  | 0, _ => none
  | f + 1, cs0 =>
    match skipWs cs0 with
    | [] => none
    | 'n' :: 'u' :: 'l' :: 'l' :: r => some (.null, r)
    | 't' :: 'r' :: 'u' :: 'e' :: r => some (.bool true, r)
    | 'f' :: 'a' :: 'l' :: 's' :: 'e' :: r => some (.bool false, r)
    | '"' :: r =>
      match parseStrChars (r.length + 1) r with
      | none => none
      | some (s, rest) => some (.str (String.mk s), rest)
    | '[' :: r =>
      match skipWs r with
      | ']' :: r2 => some (.arr [], r2)
      | r2 => parseArrLoop f r2 []
    | '-' :: r =>
      let ds := r.takeWhile Char.isDigit
      if ds.isEmpty then none
      else some (.num (-(digitsToNat ds : Int)), r.dropWhile Char.isDigit)
    | c :: r =>
      if c.isDigit then
        some (.num (digitsToNat ((c :: r).takeWhile Char.isDigit) : Int),
              (c :: r).dropWhile Char.isDigit)
      else if c = lbrace then
        let r' := skipWs r
        if r'.headD 'x' = rbrace then some (.obj [], r'.tail)
        else parseObjLoop f r' []
      else none

def parseArrLoop : Nat → List Char → List Json → Option (Json × List Char)
  | 0, _, _ => none
  | f + 1, cs, acc =>
    match parseVal f cs with
    | none => none
    | some (v, rest) =>
      match skipWs rest with
      | ',' :: r2 => parseArrLoop f r2 (acc ++ [v])
      | ']' :: r2 => some (.arr (acc ++ [v]), r2)
      | _ => none

def parseObjLoop : Nat → List Char → List (String × Json) → Option (Json × List Char)
  | 0, _, _ => none
  | f + 1, cs, acc =>
    match cs with
    | '"' :: r =>
      match parseStrChars (r.length + 1) r with
      | none => none
      | some (k, rest) =>
        match skipWs rest with
        | ':' :: r2 =>
          match parseVal f r2 with
          | none => none
          | some (v, r3) =>
            let r4 := skipWs r3
            match r4 with
            | ',' :: r5 => parseObjLoop f (skipWs r5) (acc ++ [(String.mk k, v)])
            | r5 =>
              if r5.headD 'x' = rbrace then some (.obj (acc ++ [(String.mk k, v)]), r5.tail)
              else none
        | _ => none
    | _ => none

end

/-- Model of `JSON.parse`: parse one complete JSON document, requiring only
whitespace to remain after the value. -/
def jsonParse (s : String) : Option Json :=
  let cs := s.toList
  match parseVal (4 * cs.length + 8) cs with
  | none => none
  | some (v, rest) => if (skipWs rest).isEmpty then some v else none

/-- Object field lookup with the `JSON.parse` duplicate-key rule: the last
occurrence of a key wins. -/
def jlookup (fields : List (String × Json)) (k : String) : Option Json :=
  fields.foldl (fun acc p => if p.1 = k then some p.2 else acc) none

/-- JavaScript property read of a string-valued field: `some s` exactly when
the value is an object carrying field `k` with a string value. -/
def getStr (j : Json) (k : String) : Option String :=
  match j with
  | .obj fs =>
    match jlookup fs k with
    | some (.str s) => some s
    | _ => none
  | _ => none

/-! ## Line splitting

The source splits streamed text with the regular expression split
`.split(/\r?\n/g)`: separators are the two-character sequence CR LF or a
lone LF; a lone CR does not separate. -/

def splitRN : List Char → List (List Char)
  | [] => [[]]
  | '\r' :: '\n' :: r => [] :: splitRN r
  | '\n' :: r => [] :: splitRN r
  | c :: r =>
    match splitRN r with
    | [] => [[c]]
    | l :: ls => (c :: l) :: ls

def splitLinesRN (s : String) : List String := (splitRN s.toList).map String.mk

/-- Modelled from the spec: `splitLines` lives in `src/common.ts`, which is
not part of the provided sources.  Per the specification it splits on line
boundaries, trims each line when `trim` is set and discards empty lines when
`removeEmptyEntries` is set.  Both call sites in the provided sources pass
`trim: false, removeEmptyEntries: false`, so those options are modelled as
the identity. -/
def splitLines (s : String) (trim removeEmptyEntries : Bool) : List String :=
  let lines := splitLinesRN s
  let lines := if trim then lines.map (fun l => l.trim) else lines
  if removeEmptyEntries then lines.filter (fun l => l.length != 0) else lines

/-- The accumulate-then-parse step shared by `onData` and `handleStdError`:
split the buffer on line boundaries, discard empty lines, and parse every
remaining line as JSON; any line failing to parse fails the whole step
(the `JSON.parse` exception caught by the source). -/
def parseJsonLines (s : String) : Option (List Json) :=
  ((splitLinesRN s).filter (fun l => l.length != 0)).mapM jsonParse

/-! ## Refactor worker session (src/features/refactor.ts)

`RefactorProxy.onData` accumulates stdout chunks in `_previousOutData`; the
state tracked here is that buffer, whether a command continuation
(`_commandResolve`) is installed, and whether the session has been disposed
(subprocess killed). -/

structure OutState where
  prevOutData : String
  hasResolve : Bool
  disposed : Bool

inductive OnDataResult where
  | ignored : OnDataResult
  | buffered (buf : String) : OnDataResult
  | resolved (delivered : Option Json) : OnDataResult

/-- Embedding of `RefactorProxy.onData` (refactor.ts lines 166-188): without
an installed continuation the chunk is dropped; otherwise the chunk is
appended to the buffer, and only if every non-empty line of the buffer
parses as JSON is the buffer cleared, the session disposed, and the first
parsed record delivered (`response[0]`, which is `none` when there are no
non-empty lines at all). -/
def onData (st : OutState) (data : String) : OutState × OnDataResult :=
  if st.hasResolve = false then (st, .ignored)
  else
    let dataStr := st.prevOutData ++ data
    match parseJsonLines dataStr with
    | none => ({ st with prevOutData := dataStr }, .buffered dataStr)
    | some response =>
      ({ prevOutData := "", hasResolve := false, disposed := true },
       .resolved response.head?)

/-- State relevant to `RefactorProxy.handleStdError`: the stderr accumulation
buffer and the `_startedSuccessfully` flag. -/
structure ErrState where
  prevStdErrData : String
  started : Bool
deriving DecidableEq

inductive StdErrOutcome where
  | buffered (buf : String) : StdErrOutcome
  | jsError : StdErrOutcome
  | commandRejected (msg : String) : StdErrOutcome
  | startupNotInstalled : StdErrOutcome
  | startupFailed (msg : String) : StdErrOutcome
deriving DecidableEq

/-- The last element of `splitLines(s, trim: false, removeEmptyEntries:
false)` — the `.pop()` call of refactor.ts line 143. -/
def lastLineOf (s : String) : String := (splitLines s false false).getLastD ""

/-- Embedding of the classification tail of `handleStdError` (refactor.ts
lines 147-156): after startup, the outstanding command is rejected;
before startup, an error record whose `type` field is the string
`ModuleNotFoundError` yields the distinguished `Not installed` rejection,
anything else the generic startup failure. -/
def stdErrClassify (started : Bool) (r : Json) (errorMessage : String) : StdErrOutcome :=
  if started then .commandRejected ("Refactor failed. " ++ errorMessage)
  else if getStr r ("type") = some ("ModuleNotFoundError") then .startupNotInstalled
  else .startupFailed ("Refactor failed. " ++ errorMessage)

/-- Embedding of `RefactorProxy.handleStdError` (refactor.ts lines 126-157):
accumulate stderr until every non-empty line parses as JSON; when the first
record's `message` field is absent, not a string, or empty, substitute the
last line of its `traceback`; then classify via `stdErrClassify` with the
formatted `message + "\n" + traceback`.  `jsError` marks the inputs on which
the JavaScript original would throw a `TypeError` outside its try/catch
(no record at all, or a fallback needed with no string `traceback`). -/
def handleStdError (st : ErrState) (data : String) : ErrState × StdErrOutcome :=
  let dataStr := st.prevStdErrData ++ data
  match parseJsonLines dataStr with
  | none => ({ st with prevStdErrData := dataStr }, .buffered dataStr)
  | some [] => ({ st with prevStdErrData := "" }, .jsError)
  | some (r :: _) =>
    let st' : ErrState := { st with prevStdErrData := "" }
    let msgOk : Option String :=
      match getStr r ("message") with
      | some s => if s.length = 0 then none else some s
      | none => none
    match msgOk, getStr r ("traceback") with
    | none, none => (st', .jsError)
    | none, some t =>
      (st', stdErrClassify st.started r (lastLineOf t ++ "\n" ++ t))
    | some s, tb? =>
      (st', stdErrClassify st.started r (s ++ "\n" ++ tb?.getD ("undefined")))

/-- Modelled from the spec: `getWindowsLineEndingCount` lives in
`src/common.ts`, which is not part of the provided sources.  Per the
specification it is "the count of extra (Windows two-character) line-ending
characters preceding the position": the number of CR LF sequences occurring
within the first `offset` characters of the document text. -/
def getWindowsLineEndingCount (text : String) (offset : Nat) : Nat :=
  countCrlf (text.toList.take offset)
where
  countCrlf : List Char → Nat
    | '\r' :: '\n' :: r => countCrlf r + 1
    | _ :: r => countCrlf r
    | [] => 0

/-- Embedding of `RefactorProxy.getOffsetAt` (refactor.ts lines 31-44): on a
Windows host the raw `document.offsetAt` result is returned unchanged; on
any other host it is reduced by the Windows line-ending count.  `offset` is
the raw `document.offsetAt(position)` value and `text` the document
content. -/
def getOffsetAt (isWindows : Bool) (text : String) (offset : Nat) : Nat :=
  if isWindows then offset
  else offset - getWindowsLineEndingCount text offset

/-! ## The public refactor operations as session traces

`RefactorProxy` is module-private in refactor.ts; the only exported entry
points are `addImport`, `extractVariable` and `extractMethod`, each of which
constructs a fresh `RefactorProxy` and issues exactly one command on it via
`sendCommand`.  A run of public operations is modelled as the list of
sessions it creates, each tagged with a fresh identifier and carrying the
commands sent on it. -/

inductive RefactorOp where
  | addImport : RefactorOp
  | extractVariable : RefactorOp
  | extractMethod : RefactorOp
deriving DecidableEq

/-- The `lookup` tag of the single command each public operation sends. -/
def commandLookup : RefactorOp → String
  | .addImport => "add_import"
  | .extractVariable => "extract_variable"
  | .extractMethod => "extract_method"

structure SessionTrace where
  sessionId : Nat
  commands : List String
deriving DecidableEq

/-- One public operation: construct a fresh session (`new RefactorProxy`)
and send exactly one command on it. -/
def runOp (op : RefactorOp) (fresh : Nat) : SessionTrace × Nat :=
  (⟨fresh, [commandLookup op]⟩, fresh + 1)

/-- A sequence of public operations, threading the fresh-session counter. -/
def runOps : List RefactorOp → Nat → List SessionTrace
  | [], _ => []
  | op :: ops, n =>
    let (t, n') := runOp op n
    t :: runOps ops n'

/-! ## Diff application (refactor.ts lines 301-373) -/

inductive ApplyImportsOutcome (α : Type) where
  | noEdits : ApplyImportsOutcome α
  | applied (edits : List α) : ApplyImportsOutcome α
  | rejected : ApplyImportsOutcome α

/-- Embedding of `applyImports` (refactor.ts lines 301-322): a rejected diff
promise propagates as a rejection; an empty diff applies nothing and
succeeds; otherwise the diff is translated by `getTextEditsFromPatch`
(external collaborator `gte`) and the edits applied. -/
def applyImports {α} (gte : String → String → List α) (content : String)
    (resp : Except String String) : ApplyImportsOutcome α :=
  match resp with
  | .error _ => .rejected
  | .ok diff =>
    if diff.length = 0 then .noEdits
    else .applied (gte content diff)

/-- An edit as consumed by `extractName`: only the start line of its range
and its text matter to the modelled control flow. -/
structure TextEdit where
  startLine : Nat
  newText : String

inductive ExtractNameOutcome where
  | noChange : ExtractNameOutcome
  | appliedJump (editCount : Nat) (jumpTo : Option (Nat × Nat)) : ExtractNameOutcome
  | rejected : ExtractNameOutcome
deriving DecidableEq

/-- First `some` produced by `f` along a list. -/
def firstSome {α β : Type} (f : α → Option β) : List α → Option β
  | [] => none
  | a :: l =>
    match f a with
    | some b => some b
    | none => firstSome f l

/-- Character index of the first occurrence of `pat` in `s`, standing in for
JavaScript `String.prototype.indexOf` (`none` for the `-1` result). -/
def indexOfStr (s pat : String) : Option Nat :=
  firstSome (fun i => if ((s.drop i).startsWith pat : Bool) then some i else none)
    (List.range (s.length + 1))

/-- The forward scan of `extractName` (refactor.ts lines 340-347): from the
first changed line, the first line containing `newName` gives the jump
position. -/
def findNewWord (getline : Nat → String) (lineCount : Nat) (newName : String)
    (startLine : Nat) : Option (Nat × Nat) :=
  firstSome (fun ln =>
      match indexOfStr (getline ln) newName with
      | some idx => some (ln, idx)
      | none => none)
    (List.range' startLine (lineCount - startLine))

/-- Embedding of `extractName` (refactor.ts lines 324-358): a rejected diff
promise propagates as a rejection; an empty diff applies nothing, performs
no navigation and returns successfully; otherwise the edits are applied and
the cursor jumps to the first occurrence of the new identifier at or after
the first changed line (no navigation when the edit list is empty, since
`changeStartsAtLine` stays `-1`). -/
def extractName (gte : String → String → List TextEdit) (content : String)
    (getline : Nat → String) (lineCount : Nat) (newName : String)
    (resp : Except String String) : ExtractNameOutcome :=
  match resp with
  | .error _ => .rejected
  | .ok diff =>
    if diff.length = 0 then .noChange
    else
      let edits := gte content diff
      match (edits.map (fun e => e.startLine)).min? with
      | none => .appliedJump edits.length none
      | some start => .appliedJump edits.length (findNewWord getline lineCount newName start)

/-! ## Line-oriented message parser (src/features/linters/baseLinter.ts)

The default pattern is the source's `REGEX` constant:

  `(?<line>\d+),(?<column>-?\d+),(?<type>\w+),(?<code>\w+\d+):(?<message>.*)\r?(\n|$)`

`matchAt` embeds the JavaScript regular-expression semantics of this
concrete pattern at one start position: each quantifier is greedy, `\w` is
`[A-Za-z0-9_]`, `.` matches anything but CR and LF, and the backtracking of
`\w+\d+` followed by a literal `:` forces the `code` group to be the maximal
word-character run, of length at least two and ending in a digit.
`matchScan` embeds the unanchored search: the leftmost start position at
which the pattern matches. -/

def isWordChar (c : Char) : Bool := c.isAlphanum || c = '_'

def notEol (c : Char) : Bool := !(c = '\n' || c = '\r')

/-- Acceptable suffix for the pattern tail `\r?(\n|$)` after the greedy
`message` group has consumed every non-EOL character. -/
def eolOk : List Char → Bool
  | [] => true
  | '\n' :: _ => true
  | '\r' :: [] => true
  | '\r' :: '\n' :: _ => true
  | _ => false

def expectChar (c : Char) : List Char → Option (List Char)
  | [] => none
  | x :: r => if x = c then some r else none

/-- The named capture groups of the default pattern, as produced by
`matchNamedRegEx`: all groups are strings at this stage. -/
structure RegexGroups where
  line : String
  column : String
  type : String
  code : String
  message : String
deriving DecidableEq

/-- The greedy `(?<message>.*)\r?(\n|$)` tail: consume every non-EOL
character, then require an acceptable line ending or end of input. -/
def matchMessage (r4 : List Char) : Option (List Char) :=
  if eolOk (r4.dropWhile notEol) then some (r4.takeWhile notEol) else none

/-- The `(?<code>\w+\d+):` component with its backtracking resolved: the
maximal word-character run, of length at least two and ending in a digit,
followed by a literal colon and the message tail. -/
def matchCode (r3 : List Char) : Option (List Char × List Char) :=
  if (r3.takeWhile isWordChar).length < 2 then none
  else if ((r3.takeWhile isWordChar).getLastD 'x').isDigit = false then none
  else
    match expectChar ':' (r3.dropWhile isWordChar) with
    | none => none
    | some r4 =>
      match matchMessage r4 with
      | none => none
      | some m => some (r3.takeWhile isWordChar, m)

/-- The `(?<type>\w+),` component: a non-empty maximal word-character run
followed by a comma. -/
def matchType (r2 : List Char) : Option (List Char × List Char × List Char) :=
  if (r2.takeWhile isWordChar).isEmpty then none
  else
    match expectChar ',' (r2.dropWhile isWordChar) with
    | none => none
    | some r3 =>
      match matchCode r3 with
      | none => none
      | some (w2, m) => some (r2.takeWhile isWordChar, w2, m)

/-- The `(?<column>-?\d+),` component: an optional minus sign, a non-empty
maximal digit run, and a comma. -/
def matchColumn (r1 : List Char) : Option (List Char × List Char × List Char × List Char) :=
  if r1.headD 'x' == '-' then
    if (r1.tail.takeWhile Char.isDigit).isEmpty then none
    else
      match expectChar ',' (r1.tail.dropWhile Char.isDigit) with
      | none => none
      | some r2 =>
        match matchType r2 with
        | none => none
        | some (w1, w2, m) => some ('-' :: r1.tail.takeWhile Char.isDigit, w1, w2, m)
  else
    if (r1.takeWhile Char.isDigit).isEmpty then none
    else
      match expectChar ',' (r1.dropWhile Char.isDigit) with
      | none => none
      | some r2 =>
        match matchType r2 with
        | none => none
        | some (w1, w2, m) => some (r1.takeWhile Char.isDigit, w1, w2, m)

def matchAt (cs : List Char) : Option RegexGroups :=
  if (cs.takeWhile Char.isDigit).isEmpty then none
  else
    match expectChar ',' (cs.dropWhile Char.isDigit) with
    | none => none
    | some r1 =>
      match matchColumn r1 with
      | none => none
      | some (col, w1, w2, m) =>
        some ⟨String.mk (cs.takeWhile Char.isDigit), String.mk col, String.mk w1,
              String.mk w2, String.mk m⟩

def matchScan : List Char → Option RegexGroups
  | [] => none
  | c :: r =>
    match matchAt (c :: r) with
    | some g => some g
    | none => matchScan r

/-- Embedding of `matchNamedRegEx` specialised to the default pattern. -/
def matchNamedRegEx (data : String) : Option RegexGroups := matchScan data.toList

/-- The `ILintMessage` record built by `parseLine`.  `line` and `column` are
the `Number(...)` conversions of the respective groups (the groups match
`\d+` and `-?\d+`, so the conversion never yields `NaN`; arbitrary-precision
naturals stand in for JavaScript numbers). -/
structure ILintMessage where
  code : String
  message : String
  column : Int
  line : Nat
  type : String
  provider : String
  file : Option String
deriving DecidableEq

/-- `Number(...)` on the string matched by `-?\d+`. -/
def intOfColumn (cs : List Char) : Int :=
  if cs.headD 'x' == '-' then -(digitsToNat cs.tail : Int)
  else (digitsToNat cs : Int)

/-- Embedding of `parseLine` (baseLinter.ts lines 35-53) at the default
pattern: no match yields nothing; otherwise the column is zeroed when
non-positive and reduced by the caller-supplied offset only when positive,
and the remaining groups are passed through unchanged.  The default pattern
has no `file` group, so `file` is always absent. -/
def parseLine (line : String) (pid : String) (colOffset : Int) : Option ILintMessage :=
  match matchNamedRegEx line with
  | none => none
  | some g =>
    let colNum := intOfColumn g.column.toList
    some { code := g.code, message := g.message,
           column := if colNum ≤ 0 then 0 else colNum - colOffset,
           line := digitsToNat g.line.toList, type := g.type,
           provider := pid, file := none }

/-- The accumulation loop of `BaseLinter.parseMessages` (baseLinter.ts lines
131-149): matching lines are appended in order, and the loop breaks as soon
as the accumulated count reaches `maxProblems` — a check performed only
after a push.  `parseLine` at the default pattern is total, so the per-line
catch is never exercised there. -/
def parseMessagesGo (pid : String) (colOffset : Int) (maxProblems : Nat) :
    List String → List ILintMessage → List ILintMessage
  | [], acc => acc
  | l :: ls, acc =>
    match parseLine l pid colOffset with
    | some msg =>
      let acc' := acc ++ [msg]
      if maxProblems ≤ acc'.length then acc'
      else parseMessagesGo pid colOffset maxProblems ls acc'
    | none => parseMessagesGo pid colOffset maxProblems ls acc

/-- Embedding of `BaseLinter.parseMessages` (baseLinter.ts lines 128-151):
split the tool output on line boundaries (no trimming, empty lines kept)
and run the accumulation loop. -/
def parseMessages (output : String) (pid : String) (colOffset : Int)
    (maxProblems : Nat) : List ILintMessage :=
  parseMessagesGo pid colOffset maxProblems (splitLines output false false) []

/-- Embedding of `BaseLinter.run` (baseLinter.ts lines 102-126): a disabled
tool yields no messages and spawns nothing; a failed process execution is
caught, logged (logging is external and not modelled) and yields no
messages; a successful execution's stdout is fed to `parseMessages`. -/
def run (enabled : Bool) (execResult : Except String String) (pid : String)
    (colOffset : Int) (maxProblems : Nat) : List ILintMessage :=
  if enabled = false then []
  else
    match execResult with
    | .error _ => []
    | .ok stdout => parseMessages stdout pid colOffset maxProblems

/-! ## Supporting lemmas -/

theorem beq_dash_eq_false {c : Char} (h : c.isDigit = true) : (c == '-') = false := by
  cases hb : (c == '-') with
  | false => rfl
  | true =>
    have hc : c = '-' := eq_of_beq hb
    subst hc
    exact absurd h (by decide)

theorem countCrlf_eq_zero (cs : List Char) (h : ∀ c ∈ cs, c ≠ '\r') :
    getWindowsLineEndingCount.countCrlf cs = 0 := by
  induction cs with
  | nil => rfl
  | cons a l ih =>
    have ha : a ≠ '\r' := h a (List.mem_cons_self a l)
    have hl : ∀ c ∈ l, c ≠ '\r' := fun c hc => h c (List.mem_cons_of_mem a hc)
    match a, l, ha with
    | '\r', _, ha => exact absurd rfl ha
    | a, l, _ =>
      rw [getWindowsLineEndingCount.countCrlf]
      · exact ih hl
      all_goals intro h1 h2; exact absurd rfl (h '\r' (h2 ▸ List.mem_cons_self _ _))

theorem runOps_commands (ops : List RefactorOp) : ∀ n, ∀ t ∈ runOps ops n, t.commands.length = 1 := by
  induction ops with
  | nil => intro n t ht; simp [runOps] at ht
  | cons op ops ih =>
    intro n t ht
    simp only [runOps, runOp, List.mem_cons] at ht
    rcases ht with rfl | ht
    · rfl
    · exact ih (n + 1) t ht

theorem runOps_id_ge (ops : List RefactorOp) : ∀ n, ∀ t ∈ runOps ops n, n ≤ t.sessionId := by
  induction ops with
  | nil => intro n t ht; simp [runOps] at ht
  | cons op ops ih =>
    intro n t ht
    simp only [runOps, runOp, List.mem_cons] at ht
    rcases ht with rfl | ht
    · exact Nat.le_refl n
    · exact Nat.le_of_succ_le (ih (n + 1) t ht)

theorem runOps_ids_nodup (ops : List RefactorOp) : ∀ n, ((runOps ops n).map (fun t => t.sessionId)).Nodup := by
  induction ops with
  | nil => intro n; simp [runOps]
  | cons op ops ih =>
    intro n
    simp only [runOps, runOp, List.map_cons, List.nodup_cons]
    refine ⟨fun hmem => ?_, ih (n + 1)⟩
    obtain ⟨t, ht, hid⟩ := List.mem_map.mp hmem
    have := runOps_id_ge ops (n + 1) t ht
    omega

/-! ## Claims -/

/-- Claim C1: a command response split across multiple stdout chunks is
still parsed as one complete response.  While the accumulated buffer does
not split into JSON-parseable non-empty lines, the pending command stays
unresolved and the buffer is retained; once the buffer parses, it is
cleared and the first parsed JSON record is delivered to the waiting
caller (the session disposing itself). -/
theorem onData_chunked (st : OutState) (data : String) (h : st.hasResolve = true) :
    (parseJsonLines (st.prevOutData ++ data) = none →
      (onData st data).2 = .buffered (st.prevOutData ++ data) ∧
      (onData st data).1.prevOutData = st.prevOutData ++ data ∧
      (onData st data).1.hasResolve = true) ∧
    (∀ r rs, parseJsonLines (st.prevOutData ++ data) = some (r :: rs) →
      onData st data =
        ({ prevOutData := "", hasResolve := false, disposed := true }, .resolved (some r))) := by
  constructor
  · intro hp
    simp [onData, h, hp]
  · intro r rs hp
    simp [onData, h, hp]

/-- Witness for C1: the chunks of the specification's example, delivered in
two pieces, first buffer then resolve with the parsed record. -/
theorem onData_chunked_witness :
    (onData ⟨"", true, false⟩ ("\x7b\"results\"")).2 = .buffered ("\x7b\"results\"") ∧
    onData ⟨"\x7b\"results\"", true, false⟩ (":[\x7b\"diff\":\"x\"\x7d]\x7d\n") =
      (⟨"", false, true⟩,
        .resolved (some (Json.obj [("results", Json.arr [Json.obj [("diff", Json.str "x")]])]))) :=
  ⟨((onData_chunked ⟨"", true, false⟩ ("\x7b\"results\"") rfl).1 rfl).1,
   (onData_chunked ⟨"\x7b\"results\"", true, false⟩ (":[\x7b\"diff\":\"x\"\x7d]\x7d\n") rfl).2
     (Json.obj [("results", Json.arr [Json.obj [("diff", Json.str "x")]])]) [] rfl⟩

/-- Claim C6: at most one command is ever in flight per worker session.  The
only exported refactor operations each construct a fresh session and send
exactly one command on it, so across any sequence of public operations every
session carries at most one command and no session identifier recurs. -/
theorem refactorOps_singleCommand (ops : List RefactorOp) (n : Nat) :
    (∀ t ∈ runOps ops n, t.commands.length ≤ 1) ∧
    ((runOps ops n).map (fun t => t.sessionId)).Nodup :=
  ⟨fun t ht => Nat.le_of_eq (runOps_commands ops n t ht),
   runOps_ids_nodup ops n⟩

/-- Witness for C6 at a concrete run of two public operations. -/
theorem refactorOps_singleCommand_witness :
    (SessionTrace.mk 0 ["extract_variable"]).commands.length ≤ 1 ∧
    ((runOps [RefactorOp.extractVariable, RefactorOp.addImport] 0).map
      (fun t => t.sessionId)).Nodup :=
  ⟨(refactorOps_singleCommand [RefactorOp.extractVariable, RefactorOp.addImport] 0).1
      ⟨0, ["extract_variable"]⟩ (by decide),
   (refactorOps_singleCommand [RefactorOp.extractVariable, RefactorOp.addImport] 0).2⟩

/-- Claim C7: a diagnostic run whose process execution fails returns the
empty sequence (and, being a total function, cannot throw); the failure
never propagates to the caller. -/
theorem run_execFailure_empty (enabled : Bool) (e : String) (pid : String)
    (k : Int) (m : Nat) :
    run enabled (.error e) pid k m = [] := by
  unfold run
  cases enabled <;> simp

/-- Claim C9, counterexample: on a Windows host with a document that uses
Windows two-character line endings, `getOffsetAt` returns the raw offset
(4) rather than the offset reduced by the one CR LF preceding the position
(3) that the claim demands. -/
theorem getOffsetAt_windowsCrlf_cex :
    getOffsetAt true ("a\r\nb") 4 = 4 ∧
    getWindowsLineEndingCount ("a\r\nb") 4 = 1 ∧
    (4 : Nat) ≠ 4 - getWindowsLineEndingCount ("a\r\nb") 4 := by
  refine ⟨rfl, rfl, ?_⟩
  decide

/-- Claim C9, amended: on a Windows host `getOffsetAt` returns the raw
offset unchanged regardless of the document's line endings; on a
non-Windows host it returns the raw offset reduced by the count of Windows
line endings preceding the position — which equals the raw offset whenever
the document uses single-character line endings. -/
theorem getOffsetAt_platformBehavior (text : String) (offset : Nat) :
    getOffsetAt true text offset = offset ∧
    getOffsetAt false text offset = offset - getWindowsLineEndingCount text offset ∧
    ((∀ c ∈ text.toList, c ≠ '\r') → getOffsetAt false text offset = offset) := by
  refine ⟨rfl, rfl, fun hcr => ?_⟩
  have h0 : getWindowsLineEndingCount text offset = 0 := by
    unfold getWindowsLineEndingCount
    exact countCrlf_eq_zero _ fun c hc => hcr c (List.take_subset offset text.toList hc)
  simp [getOffsetAt, h0]

/-- Witness for C9 on a single-character line-ending document. -/
theorem getOffsetAt_platformBehavior_witness :
    getOffsetAt true ("a\nb") 2 = 2 ∧ getOffsetAt false ("a\nb") 2 = 2 :=
  ⟨(getOffsetAt_platformBehavior ("a\nb") 2).1,
   (getOffsetAt_platformBehavior ("a\nb") 2).2.2 (by decide)⟩

/-- Claim C10: when the refactor subprocess resolves a command with an empty
diff, both diff-application paths apply no edits, perform no cursor
navigation, and complete successfully. -/
theorem emptyDiff_noEdits {α : Type} (gte : String → String → List α)
    (gte2 : String → String → List TextEdit) (content content2 : String)
    (getline : Nat → String) (lineCount : Nat) (newName : String) :
    applyImports gte content (.ok "") = .noEdits ∧
    extractName gte2 content2 getline lineCount newName (.ok "") = .noChange :=
  ⟨rfl, rfl⟩

theorem parseMessagesGo_spec (pid : String) (k : Int) (m : Nat) :
    ∀ (ls : List String) (acc : List ILintMessage), acc.length < m →
      parseMessagesGo pid k m ls acc =
        acc ++ (ls.filterMap (fun l => parseLine l pid k)).take (m - acc.length) := by
  intro ls
  induction ls with
  | nil => intro acc _; simp [parseMessagesGo]
  | cons l ls ih =>
    intro acc hlt
    rw [parseMessagesGo]
    cases h : parseLine l pid k with
    | none => simp only [List.filterMap_cons, h]; exact ih acc hlt
    | some msg =>
      simp only [List.filterMap_cons, h]
      by_cases hm : m ≤ (acc ++ [msg]).length
      · rw [if_pos hm]
        have hm1 : m - acc.length = 1 := by
          simp only [List.length_append, List.length_singleton] at hm ⊢
          omega
        rw [hm1]
        simp [List.take]
      · rw [if_neg hm]
        have hlt' : (acc ++ [msg]).length < m := by
          simp only [List.length_append, List.length_singleton] at hm ⊢
          omega
        rw [ih (acc ++ [msg]) hlt']
        have hsucc : m - acc.length = (m - (acc ++ [msg]).length) + 1 := by
          simp only [List.length_append, List.length_singleton]
          omega
        rw [hsucc, List.take_succ_cons, List.append_assoc]
        rfl

/-- Claim C3, counterexample: with the configured maximum set to 0 and two
matching lines, `parseMessages` still returns one message — the bound is
checked only after a message has been appended, so "at most m" fails at
m = 0. -/
theorem parseMessages_maxZero_cex :
    (parseMessages ("1,1,W,W1:a\n2,2,W,W2:b") ("pylint") 0 0).length = 1 ∧
    ¬ ((parseMessages ("1,1,W,W1:a\n2,2,W,W2:b") ("pylint") 0 0).length ≤ 0) := by
  refine ⟨?_, ?_⟩ <;> decide

/-- Claim C3, amended: for every linter output and every configured maximum
m ≥ 1, `parseMessages` returns the first (at most) m matching lines in
input order — exactly the m-prefix of the per-line parses — and hence never
more than m messages.  (At m = 0, one message is still produced when a line
matches, since the bound is checked only after a push.) -/
theorem parseMessages_maxCount (output : String) (pid : String) (k : Int) (m : Nat)
    (hm : 1 ≤ m) :
    parseMessages output pid k m =
      ((splitLines output false false).filterMap (fun l => parseLine l pid k)).take m ∧
    (parseMessages output pid k m).length ≤ m := by
  have h := parseMessagesGo_spec pid k m (splitLines output false false) []
    (by simp only [List.length_nil]; omega)
  have heq : parseMessages output pid k m =
      ((splitLines output false false).filterMap (fun l => parseLine l pid k)).take m := by
    simpa [parseMessages] using h
  refine ⟨heq, ?_⟩
  rw [heq]
  simp

/-- Witness for C3: three matching lines, maximum 2. -/
theorem parseMessages_maxCount_witness :
    parseMessages ("1,1,W,W1:a\n2,2,W,W2:b\n3,3,W,W3:c") ("pylint") 0 2 =
      ((splitLines ("1,1,W,W1:a\n2,2,W,W2:b\n3,3,W,W3:c") false false).filterMap
        (fun l => parseLine l ("pylint") 0)).take 2 ∧
    (parseMessages ("1,1,W,W1:a\n2,2,W,W2:b\n3,3,W,W3:c") ("pylint") 0 2).length ≤ 2 :=
  parseMessages_maxCount ("1,1,W,W1:a\n2,2,W,W2:b\n3,3,W,W3:c") ("pylint") 0 2 (by decide)

theorem parseMessagesGo_erase_none (pid : String) (k : Int) (m : Nat) (bad : String)
    (hbad : parseLine bad pid k = none) :
    ∀ (xs ys : List String) (acc : List ILintMessage),
      parseMessagesGo pid k m (xs ++ bad :: ys) acc = parseMessagesGo pid k m (xs ++ ys) acc := by
  intro xs
  induction xs with
  | nil =>
    intro ys acc
    simp only [List.nil_append]
    rw [parseMessagesGo, hbad]
  | cons x xs ih =>
    intro ys acc
    simp only [List.cons_append]
    rw [parseMessagesGo, parseMessagesGo]
    cases h : parseLine x pid k with
    | none => exact ih ys acc
    | some msg =>
      dsimp only
      by_cases hm : m ≤ (acc ++ [msg]).length
      · simp only [if_pos hm]
      · simp only [if_neg hm]
        exact ih ys (acc ++ [msg])

/-- Claim C8: per-line parsing of a malformed line yields no match (it is
total, so it cannot crash), and batch processing continues: the messages
produced for a batch containing a malformed line are exactly those produced
for the batch with that line absent. -/
theorem parseMessages_skipMalformed (out1 out2 bad : String) (pid : String) (k : Int)
    (m : Nat) (xs ys : List String)
    (hbad : parseLine bad pid k = none)
    (h1 : splitLines out1 false false = xs ++ bad :: ys)
    (h2 : splitLines out2 false false = xs ++ ys) :
    parseMessages out1 pid k m = parseMessages out2 pid k m := by
  unfold parseMessages
  rw [h1, h2]
  exact parseMessagesGo_erase_none pid k m bad hbad xs ys []

/-- Witness for C8: a garbage line between two matching lines changes
nothing about the other lines' messages. -/
theorem parseMessages_skipMalformed_witness :
    parseMessages ("1,1,W,W1:a\ngarbage\n2,2,W,W2:b") ("pylint") 0 100 =
      parseMessages ("1,1,W,W1:a\n2,2,W,W2:b") ("pylint") 0 100 :=
  parseMessages_skipMalformed ("1,1,W,W1:a\ngarbage\n2,2,W,W2:b")
    ("1,1,W,W1:a\n2,2,W,W2:b") ("garbage") ("pylint") 0 100
    ["1,1,W,W1:a"] ["2,2,W,W2:b"] (by decide) (by decide) (by decide)

/-- Claim C4, counterexample: the specification's example stderr record
carries no `type` field, so `handleStdError` before startup classifies it
as the generic startup failure, not as the distinguished `Not installed`
outcome — the dependency-missing classification requires an explicit
`"type":"ModuleNotFoundError"` tag. -/
theorem handleStdError_missingType_cex :
    (handleStdError ⟨"", false⟩
        ("\x7b\"message\":\"\",\"traceback\":\"Traceback...\\nModuleNotFoundError: no module rope\"\x7d")).2 =
      .startupFailed
        ("Refactor failed. ModuleNotFoundError: no module rope\nTraceback...\nModuleNotFoundError: no module rope") ∧
    (handleStdError ⟨"", false⟩
        ("\x7b\"message\":\"\",\"traceback\":\"Traceback...\\nModuleNotFoundError: no module rope\"\x7d")).2 ≠
      .startupNotInstalled := by
  refine ⟨?_, ?_⟩ <;> decide

/-- Claim C4, amended: an error record accumulated on stderr before the
ready sentinel yields the distinguished `Not installed` classification
exactly when it carries the `"type":"ModuleNotFoundError"` tag (with a
string traceback available for the message-fallback step that runs
first). -/
theorem handleStdError_moduleNotFound (st : ErrState) (data : String)
    (r : Json) (rs : List Json) (t : String)
    (hstart : st.started = false)
    (hparse : parseJsonLines (st.prevStdErrData ++ data) = some (r :: rs))
    (htype : getStr r ("type") = some ("ModuleNotFoundError"))
    (htb : getStr r ("traceback") = some t) :
    (handleStdError st data).2 = .startupNotInstalled := by
  unfold handleStdError
  simp only [hparse]
  cases hm : getStr r ("message") with
  | none => simp [hm, htb, stdErrClassify, hstart, htype]
  | some s =>
    by_cases hs : s.length = 0 <;>
      simp [hm, hs, htb, stdErrClassify, hstart, htype]

/-- Witness for C4 (amended): a record with the explicit type tag. -/
theorem handleStdError_moduleNotFound_witness :
    (handleStdError ⟨"", false⟩
        ("\x7b\"message\":\"\",\"traceback\":\"tb\",\"type\":\"ModuleNotFoundError\"\x7d")).2 =
      .startupNotInstalled :=
  handleStdError_moduleNotFound ⟨"", false⟩
    ("\x7b\"message\":\"\",\"traceback\":\"tb\",\"type\":\"ModuleNotFoundError\"\x7d")
    (Json.obj [("message", Json.str ""), ("traceback", Json.str "tb"),
               ("type", Json.str "ModuleNotFoundError")])
    [] ("tb") rfl rfl rfl rfl

/-- Claim C5, counterexample: for the started session receiving the record
with empty `message` and traceback `"A\nB"`, the command is rejected with
`Refactor failed. B\nA\nB` — the summary is the LAST line of the traceback
(`.pop()`), not the first line `A` the claim states, and the rejection also
carries the `Refactor failed. ` prefix. -/
theorem handleStdError_firstLine_cex :
    (handleStdError ⟨"", true⟩ ("\x7b\"message\":\"\",\"traceback\":\"A\\nB\"\x7d")).2 =
      .commandRejected ("Refactor failed. B\nA\nB") ∧
    (handleStdError ⟨"", true⟩ ("\x7b\"message\":\"\",\"traceback\":\"A\\nB\"\x7d")).2 ≠
      .commandRejected ("A" ++ "\n" ++ "A\nB") := by
  refine ⟨?_, ?_⟩ <;> decide

/-- Claim C5, amended: when a complete stderr error record has no usable
`message` (absent, not a string, or empty), the LAST line of its traceback
is used as the one-line summary, and a started session's outstanding
command is rejected with `Refactor failed. ` followed by that summary, a
newline, and the full traceback. -/
theorem handleStdError_fallbackSummary (st : ErrState) (data : String)
    (r : Json) (rs : List Json) (t : String)
    (hstart : st.started = true)
    (hparse : parseJsonLines (st.prevStdErrData ++ data) = some (r :: rs))
    (hmsg : getStr r ("message") = none ∨ getStr r ("message") = some "")
    (htb : getStr r ("traceback") = some t) :
    (handleStdError st data).2 =
      .commandRejected ("Refactor failed. " ++ (lastLineOf t ++ "\n" ++ t)) := by
  unfold handleStdError
  simp only [hparse]
  rcases hmsg with hm | hm
  · simp [hm, htb, stdErrClassify, hstart]
  · have h0 : ("" : String).length = 0 := rfl
    simp [hm, h0, htb, stdErrClassify, hstart]

/-- Witness for C5 (amended) at the concrete record with traceback
`"A\nB"`. -/
theorem handleStdError_fallbackSummary_witness :
    (handleStdError ⟨"", true⟩ ("\x7b\"message\":\"\",\"traceback\":\"A\\nB\"\x7d")).2 =
      .commandRejected ("Refactor failed. " ++ (lastLineOf ("A\nB") ++ "\n" ++ "A\nB")) :=
  handleStdError_fallbackSummary ⟨"", true⟩ ("\x7b\"message\":\"\",\"traceback\":\"A\\nB\"\x7d")
    (Json.obj [("message", Json.str ""), ("traceback", Json.str "A\nB")])
    [] ("A\nB") rfl rfl (Or.inr rfl) rfl

/-- Claim C2, counterexample: on the matching line `1,1,W,W1:m` with column
offset 2, `parseLine` returns column `1 - 2 = -1`, not the
`max(1 - 2, 0) = 0` the claim states — the subtraction of the offset is
never clamped at zero. -/
theorem parseLine_offsetClamp_cex :
    (parseLine ("1,1,W,W1:m") ("pylint") 2).map (fun msg => msg.column) = some (-1) ∧
    ((-1 : Int) ≠ max ((1 : Int) - 2) 0) := by
  refine ⟨?_, ?_⟩ <;> decide

theorem matchMessage_spec (m : List Char) (hm : ∀ c ∈ m, notEol c = true) :
    matchMessage m = some m := by
  unfold matchMessage
  rw [dropWhile_all notEol m hm, takeWhile_all notEol m hm]
  rfl

theorem matchCode_spec (w2 m : List Char) (hw2len : 2 ≤ w2.length)
    (hw2w : ∀ c ∈ w2, isWordChar c = true)
    (hw2last : (w2.getLastD 'x').isDigit = true)
    (hm : ∀ c ∈ m, notEol c = true) :
    matchCode (w2 ++ ':' :: m) = some (w2, m) := by
  unfold matchCode
  rw [takeWhile_all_append isWordChar w2 ':' m hw2w (by decide),
      dropWhile_all_append isWordChar w2 ':' m hw2w (by decide)]
  rw [if_neg (by omega : ¬ (w2.length < 2))]
  rw [hw2last]
  rw [if_neg (by decide : ¬ ((true : Bool) = false))]
  simp only [expectChar, if_true]
  rw [matchMessage_spec m hm]

theorem matchType_spec (w1 w2 m : List Char) (hw1 : w1 ≠ [])
    (hw1w : ∀ c ∈ w1, isWordChar c = true)
    (hw2len : 2 ≤ w2.length) (hw2w : ∀ c ∈ w2, isWordChar c = true)
    (hw2last : (w2.getLastD 'x').isDigit = true)
    (hm : ∀ c ∈ m, notEol c = true) :
    matchType (w1 ++ ',' :: (w2 ++ ':' :: m)) = some (w1, w2, m) := by
  unfold matchType
  rw [takeWhile_all_append isWordChar w1 ',' (w2 ++ ':' :: m) hw1w (by decide),
      dropWhile_all_append isWordChar w1 ',' (w2 ++ ':' :: m) hw1w (by decide)]
  have hne : ¬ (w1.isEmpty = true) := by
    cases w1 with
    | nil => exact absurd rfl hw1
    | cons a t => simp
  rw [if_neg hne]
  simp only [expectChar, if_true]
  rw [matchCode_spec w2 m hw2len hw2w hw2last hm]

theorem matchColumn_spec (neg : Bool) (d2 w1 w2 m : List Char)
    (hd2 : d2 ≠ []) (hd2d : ∀ c ∈ d2, c.isDigit = true)
    (hw1 : w1 ≠ []) (hw1w : ∀ c ∈ w1, isWordChar c = true)
    (hw2len : 2 ≤ w2.length) (hw2w : ∀ c ∈ w2, isWordChar c = true)
    (hw2last : (w2.getLastD 'x').isDigit = true)
    (hm : ∀ c ∈ m, notEol c = true) :
    matchColumn ((if neg then ['-'] else []) ++ (d2 ++ ',' :: (w1 ++ ',' :: (w2 ++ ':' :: m)))) =
      some ((if neg then ['-'] else []) ++ d2, w1, w2, m) := by
  have hne2 : ¬ (d2.isEmpty = true) := by
    cases d2 with
    | nil => exact absurd rfl hd2
    | cons a t => simp
  cases neg with
  | true =>
    show matchColumn ('-' :: (d2 ++ ',' :: (w1 ++ ',' :: (w2 ++ ':' :: m)))) =
      some ('-' :: d2, w1, w2, m)
    unfold matchColumn
    rw [if_pos (by simp : ((('-' :: (d2 ++ ',' :: (w1 ++ ',' :: (w2 ++ ':' :: m)))).headD 'x') == '-') = true)]
    rw [List.tail_cons]
    rw [takeWhile_all_append Char.isDigit d2 ',' (w1 ++ ',' :: (w2 ++ ':' :: m)) hd2d (by decide),
        dropWhile_all_append Char.isDigit d2 ',' (w1 ++ ',' :: (w2 ++ ':' :: m)) hd2d (by decide)]
    rw [if_neg hne2]
    simp only [expectChar, if_true]
    rw [matchType_spec w1 w2 m hw1 hw1w hw2len hw2w hw2last hm]
  | false =>
    show matchColumn (d2 ++ ',' :: (w1 ++ ',' :: (w2 ++ ':' :: m))) =
      some (d2, w1, w2, m)
    obtain ⟨b1, d2t, rfl⟩ : ∃ a t, d2 = a :: t := by
      cases d2 with
      | nil => exact absurd rfl hd2
      | cons a t => exact ⟨a, t, rfl⟩
    have hb1 : b1.isDigit = true := hd2d b1 (List.mem_cons_self _ _)
    have hbne : (b1 == '-') = false := beq_dash_eq_false hb1
    have hc : ((((b1 :: d2t) ++ ',' :: (w1 ++ ',' :: (w2 ++ ':' :: m))).headD 'x') == '-') = false := by
      rw [List.cons_append, List.headD_cons]
      exact hbne
    unfold matchColumn
    rw [hc]
    rw [if_neg (by decide : ¬ ((false : Bool) = true))]
    rw [takeWhile_all_append Char.isDigit (b1 :: d2t) ',' (w1 ++ ',' :: (w2 ++ ':' :: m)) hd2d (by decide),
        dropWhile_all_append Char.isDigit (b1 :: d2t) ',' (w1 ++ ',' :: (w2 ++ ':' :: m)) hd2d (by decide)]
    rw [if_neg hne2]
    simp only [expectChar, if_true]
    rw [matchType_spec w1 w2 m hw1 hw1w hw2len hw2w hw2last hm]


/-- Claim C2, amended: for every line of the default pattern's shape —
digits, comma, optionally signed digits, comma, a word run, comma, a word
run of length at least two ending in a digit, colon, message — and every
caller-supplied column offset k, `parseLine` succeeds; its column is 0 when
the raw column value c is non-positive (the offset never applies to a
clamped zero) and is c - k, unclamped, when c is positive; line, type, code
and message round-trip unchanged. -/
theorem parseLine_roundTrip
    (d1 d2 w1 w2 m : List Char) (neg : Bool) (k : Int) (pid : String)
    (hd1 : d1 ≠ []) (hd1d : ∀ c ∈ d1, c.isDigit = true)
    (hd2 : d2 ≠ []) (hd2d : ∀ c ∈ d2, c.isDigit = true)
    (hw1 : w1 ≠ []) (hw1w : ∀ c ∈ w1, isWordChar c = true)
    (hw2len : 2 ≤ w2.length) (hw2w : ∀ c ∈ w2, isWordChar c = true)
    (hw2last : (w2.getLastD 'x').isDigit = true)
    (hm : ∀ c ∈ m, notEol c = true) :
    parseLine
      (String.mk (d1 ++ ',' :: ((if neg then ['-'] else []) ++
        (d2 ++ ',' :: (w1 ++ ',' :: (w2 ++ ':' :: m)))))) pid k
      = some { code := String.mk w2, message := String.mk m,
               column :=
                 if (if neg then -(digitsToNat d2 : Int) else (digitsToNat d2 : Int)) ≤ 0 then 0
                 else (if neg then -(digitsToNat d2 : Int) else (digitsToNat d2 : Int)) - k,
               line := digitsToNat d1, type := String.mk w1,
               provider := pid, file := none } := by
  have htl : ∀ l : List Char, (String.mk l).toList = l := fun _ => rfl
  obtain ⟨a1, d1t, rfl⟩ : ∃ a t, d1 = a :: t := by
    cases d1 with
    | nil => exact absurd rfl hd1
    | cons a t => exact ⟨a, t, rfl⟩
  have hmat : matchAt ((a1 :: d1t) ++ ',' ::
      ((if neg then ['-'] else []) ++ (d2 ++ ',' :: (w1 ++ ',' :: (w2 ++ ':' :: m))))) =
      some ⟨String.mk (a1 :: d1t), String.mk ((if neg then ['-'] else []) ++ d2),
            String.mk w1, String.mk w2, String.mk m⟩ := by
    unfold matchAt
    rw [takeWhile_all_append Char.isDigit (a1 :: d1t) ','
          ((if neg then ['-'] else []) ++ (d2 ++ ',' :: (w1 ++ ',' :: (w2 ++ ':' :: m))))
          hd1d (by decide),
        dropWhile_all_append Char.isDigit (a1 :: d1t) ','
          ((if neg then ['-'] else []) ++ (d2 ++ ',' :: (w1 ++ ',' :: (w2 ++ ':' :: m))))
          hd1d (by decide)]
    rw [if_neg (by simp : ¬ ((a1 :: d1t).isEmpty = true))]
    simp only [expectChar, if_true]
    rw [matchColumn_spec neg d2 w1 w2 m hd2 hd2d hw1 hw1w hw2len hw2w hw2last hm]
  unfold parseLine matchNamedRegEx
  rw [htl]
  rw [List.cons_append, matchScan, ← List.cons_append, hmat]
  have hhd2 : (d2.head?.getD 'x').isDigit = true := by
    cases d2 with
    | nil => exact absurd rfl hd2
    | cons a t => exact hd2d a (List.mem_cons_self _ _)
  have hdne2 : ¬ (d2.head?.getD 'x' = '-') := fun h => by
    rw [h] at hhd2
    exact absurd hhd2 (by decide)
  cases neg with
  | true => simp [intOfColumn, htl]
  | false => simp [intOfColumn, htl, hdne2]

/-- Witness for C2 (amended): the specification's scenario line
`12,-1,Error,E501:line too long` with offset 0 parses to line 12, column 0,
type `Error`, code `E501`, message `line too long`. -/
theorem parseLine_roundTrip_witness :
    parseLine ("12,-1,Error,E501:line too long") ("pylint") 0 =
      some { code := "E501", message := "line too long", column := 0, line := 12,
             type := "Error", provider := "pylint", file := none } := by
  have h := parseLine_roundTrip ['1', '2'] ['1'] ("Error".toList) ("E501".toList)
    ("line too long".toList) true 0 ("pylint")
    (by decide) (by decide) (by decide) (by decide) (by decide) (by decide)
    (by decide) (by decide) (by decide) (by decide)
  exact h.trans (by decide)

end CocPyright
